import Mathlib

/-!
Verification development for the code-review-assistant repository.

The definitions below are shallow embeddings of the JavaScript source:

* `calculateQualityScore`, `calculateSecurityScore` — `src/app.js`
  (`calculateQualityScore`, `calculateSecurityScore`);
* `severityRank`, `sortIssues` — the severity sort inside
  `updateIssuesList` in `src/app.js`;
* `validateUploadFile`, `handleFileUploadSteps` — the upload boundary in
  `src/app.js`;
* `GeminiClient.parseAnalysisResponse`, `GeminiClient.analyzeCode`,
  `GeminiClient.validateIssueCounts` — the Gemini client file;
* `APIClient.categorizeError`, `APIClient.handlerRetry`,
  `APIClient.makeRequest` — `src/api-client.js`;
* `Chunker.chunk` — modelled from the spec (no chunker exists in the
  source tree).

JavaScript numbers that the code only ever uses as integers are modelled
as `Nat`/`Int`; nullable/optional values as `Option`; thrown exceptions
as `Except`.
-/

namespace CodeReview

/-- One analysis issue as produced by the Gemini client and consumed by the
UI layer: `{ type, severity, line, message, suggestion, confidence }`. -/
structure Issue where
  type : String
  severity : String
  line : Nat
  message : String
  suggestion : String
  confidence : Option Rat
  deriving Repr, DecidableEq

/-- The report summary shape used by `calculateQualityScore` in
`src/app.js`: the three severity-count fields may be absent (JS
`summary.high_severity_issues || 0`). -/
structure Summary where
  high_severity_issues : Option Nat
  medium_severity_issues : Option Nat
  low_severity_issues : Option Nat
  deriving Repr, DecidableEq

/-- The report shape used by `calculateSecurityScore` in `src/app.js`:
the `issues` field may be absent (JS `!report.issues`). -/
structure ScoreReport where
  issues : Option (List Issue)
  deriving Repr, DecidableEq

/-- Embedding of `calculateQualityScore(summary)` from `src/app.js`:
`null`/`undefined` summary yields the default 85; otherwise
`Math.round(Math.max(0, 100 - 20*high - 10*medium - 5*low))` with missing
counts read as 0.  All quantities are integers, so `Math.round` is the
identity and is not represented. -/
def calculateQualityScore (summary : Option Summary) : Int :=
  match summary with
  | none => 85
  | some s =>
      let baseScore : Int := 100
      let highPenalty : Int := (s.high_severity_issues.getD 0 : Nat) * 20
      let mediumPenalty : Int := (s.medium_severity_issues.getD 0 : Nat) * 10
      let lowPenalty : Int := (s.low_severity_issues.getD 0 : Nat) * 5
      max 0 (baseScore - highPenalty - mediumPenalty - lowPenalty)

/-- Embedding of `calculateSecurityScore(report)` from `src/app.js`:
missing report or missing `issues` yields 100; otherwise the issues of
type `"security"` are partitioned by severity and the score is
`Math.max(0, 100 - 30*high - 15*medium - 5*low)`. -/
def calculateSecurityScore (report : Option ScoreReport) : Int :=
  match report with
  | none => 100
  | some r =>
      match r.issues with
      | none => 100
      | some issues =>
          let securityIssues := issues.filter (fun i => i.type == "security")
          let highSecurityIssues :=
            (securityIssues.filter (fun i => i.severity == "high")).length
          let mediumSecurityIssues :=
            (securityIssues.filter (fun i => i.severity == "medium")).length
          let lowSecurityIssues :=
            (securityIssues.filter (fun i => i.severity == "low")).length
          let baseScore : Int := 100
          let penalty : Int :=
            (highSecurityIssues * 30 + mediumSecurityIssues * 15 +
              lowSecurityIssues * 5 : Nat)
          max 0 (baseScore - penalty)

/-- The formula the specification states for the security score: the same
penalties as the quality score (20 per high, 10 per medium, 5 per low)
restricted to issues of type security.  Written from the claim for
comparison with `calculateSecurityScore`. -/
def securityScoreSpec (issues : List Issue) : Int :=
  let sec := issues.filter (fun i => i.type == "security")
  let h := (sec.filter (fun i => i.severity == "high")).length
  let m := (sec.filter (fun i => i.severity == "medium")).length
  let l := (sec.filter (fun i => i.severity == "low")).length
  max 0 (100 - 20 * h - 10 * m - 5 * l : Int)

/-- The severity ranking used by the sort in `updateIssuesList`
(`src/app.js`): `{ high: 3, medium: 2, low: 1 }` with `|| 0` for any
other value. -/
def severityRank (severity : String) : Nat :=
  if severity == "high" then 3
  else if severity == "medium" then 2
  else if severity == "low" then 1
  else 0

/-- Stable insertion step for `sortIssues`: the element is placed before
the first element whose severity rank is not larger, so earlier elements
of equal rank stay earlier (the stability JavaScript guarantees for
`Array.prototype.sort`). -/
def insertBySeverity (x : Issue) : List Issue → List Issue
  | [] => [x]
  | y :: ys =>
      if severityRank y.severity ≤ severityRank x.severity then x :: y :: ys
      else y :: insertBySeverity x ys

/-- Embedding of the sort in `updateIssuesList` (`src/app.js`):
`[...issues].sort((a, b) => severityOrder[b.severity] - severityOrder[a.severity])`,
a stable sort by descending severity rank and nothing else.  Realised as
a stable insertion sort, which produces the same list as any stable sort
for this comparator. -/
def sortIssues (issues : List Issue) : List Issue :=
  issues.foldr insertBySeverity []

/-! The Gemini client (`GeminiClient` in the source).  `JSON.parse` of the
extracted text is modelled by an `Option Analysis` argument: `some a`
when the text parses to the object `a`, `none` when parsing throws. -/

/-- The summary object of a parsed Gemini analysis
(`total_issues`, severity counts, three scores). -/
structure GSummary where
  total_issues : Int
  high_severity_issues : Int
  medium_severity_issues : Int
  low_severity_issues : Int
  overall_quality_score : Int
  security_score : Int
  performance_score : Int
  deriving Repr, DecidableEq

/-- A successfully JSON-parsed analysis object; every field may be absent
(the source reads them through `analysis.summary || {...}` etc.). -/
structure Analysis where
  summary : Option GSummary
  issues : Option (List Issue)
  recommendations : Option (List String)
  positive_aspects : Option (List String)
  deriving Repr, DecidableEq

/-- The report object built by `GeminiClient.parseAnalysisResponse`. -/
structure GReport where
  id : String
  filename : String
  status : String
  timestamp : String
  report_summary : GSummary
  issues : List Issue
  recommendations : List String
  positive_aspects : List String
  deriving Repr, DecidableEq

namespace GeminiClient

/-- The default summary substituted when the parsed analysis has no
`summary` field (scores 85/90/80). -/
def defaultSummary : GSummary :=
  { total_issues := 0, high_severity_issues := 0, medium_severity_issues := 0,
    low_severity_issues := 0, overall_quality_score := 85,
    security_score := 90, performance_score := 80 }

/-- The summary of the fallback report returned when the response cannot
be parsed (scores 75/80/75). -/
def fallbackSummary : GSummary :=
  { total_issues := 0, high_severity_issues := 0, medium_severity_issues := 0,
    low_severity_issues := 0, overall_quality_score := 75,
    security_score := 80, performance_score := 75 }

/-- The placeholder issue of the fallback report. -/
def fallbackIssue : Issue :=
  { type := "quality", severity := "low", line := 1,
    message := "Analysis completed but response format was unexpected",
    suggestion := "The code was analyzed but the detailed results could not be parsed properly.",
    confidence := some (1 / 2) }

/-- Embedding of `GeminiClient.validateIssueCounts`: recompute the four
count fields of the summary from the actual issue list (severities
compared lower-cased). -/
def validateIssueCounts (report : GReport) : GReport :=
  let issues := report.issues
  let high := (issues.filter (fun i => i.severity.toLower == "high")).length
  let medium := (issues.filter (fun i => i.severity.toLower == "medium")).length
  let low := (issues.filter (fun i => i.severity.toLower == "low")).length
  { report with
      report_summary :=
        { report.report_summary with
            total_issues := issues.length
            high_severity_issues := high
            medium_severity_issues := medium
            low_severity_issues := low } }

/-- Embedding of `GeminiClient.parseAnalysisResponse`.  `parsed` is the
outcome of extracting and `JSON.parse`-ing the analysis text; `rid` and
`ts` are the generated report id (`Math.random`-based) and the
`new Date().toISOString()` timestamp.  On a parse failure the source
returns a hard-coded "completed" fallback report and skips
`validateIssueCounts`. -/
def parseAnalysisResponse (parsed : Option Analysis)
    (filename rid ts : String) : GReport :=
  match parsed with
  | some analysis =>
      validateIssueCounts
        { id := rid, filename := filename, status := "completed",
          timestamp := ts,
          report_summary := analysis.summary.getD defaultSummary,
          issues := analysis.issues.getD [],
          recommendations := analysis.recommendations.getD [],
          positive_aspects := analysis.positive_aspects.getD [] }
  | none =>
      { id := rid, filename := filename, status := "completed",
        timestamp := ts,
        report_summary := fallbackSummary,
        issues := [fallbackIssue],
        recommendations := ["Consider running the analysis again for detailed results"],
        positive_aspects := ["Code was successfully processed"] }

/-- Outcome of the single `fetch` to the Gemini endpoint inside
`analyzeCode`: the fetch itself may throw, the response may be non-ok,
or a response body arrives whose `candidates[0].content.parts[0].text`
is absent (`none`) or present (`some parsed`, with `parsed` the
`JSON.parse` outcome consumed by `parseAnalysisResponse`). -/
inductive GeminiOutcome where
  | fetchFailed (msg : String)
  | httpNotOk (msg : String)
  | responded (analysisText : Option (Option Analysis))
  deriving Repr, DecidableEq

/-- Embedding of `GeminiClient.analyzeCode`: a missing API key, a failed
fetch, a non-ok HTTP response or an absent analysis text all throw
(`Except.error`); only a received analysis text reaches
`parseAnalysisResponse`.  The `catch` block rethrows, so every error is
propagated to the caller unchanged. -/
def analyzeCode (apiKey : String) (outcome : GeminiOutcome)
    (filename rid ts : String) : Except String GReport :=
  if apiKey == "" then .error "Gemini API key is required"
  else
    match outcome with
    | .fetchFailed msg => .error msg
    | .httpNotOk msg => .error ("Gemini API error: " ++ msg)
    | .responded none => .error "No analysis received from Gemini API"
    | .responded (some parsed) =>
        .ok (parseAnalysisResponse parsed filename rid ts)

end GeminiClient

/-! The API client (`src/api-client.js`): error categorisation, the
default error handlers' retry decisions, and the retry recursion of
`makeRequest`/`handleError`. -/

/-- A thrown request error as `categorizeError` inspects it: its `name`
and its optional HTTP `status` (absent for errors not built from an HTTP
response, where every JS numeric comparison on `undefined` is false). -/
structure JsError where
  name : String
  status : Option Nat
  deriving Repr, DecidableEq

namespace APIClient

/-- Embedding of `APIClient.categorizeError`: offline or a
`NetworkError` name is `network`; then status 401/403 is `auth`, 429 is
`rateLimit`, other 4xx is `validation`, 5xx is `server`; anything else
(no status, or status below 400) is `unknown`. -/
def categorizeError (onLine : Bool) (e : JsError) : String :=
  if !onLine || e.name == "NetworkError" then "network"
  else
    match e.status with
    | some s =>
        if s == 401 || s == 403 then "auth"
        else if s == 429 then "rateLimit"
        else if 400 ≤ s && s < 500 then "validation"
        else if 500 ≤ s then "server"
        else "unknown"
    | none => "unknown"

/-- The `retry` flags of the default error handlers registered by
`initializeDefaultErrorHandlers`; `none` for a category with no handler
(then `handleError` leaves `shouldRetry` false). -/
def handlerRetry (category : String) : Option Bool :=
  if category == "network" then some true
  else if category == "auth" then some false
  else if category == "server" then some true
  else if category == "validation" then some false
  else if category == "rateLimit" then some true
  else none

/-- The retry decision of `APIClient.handleError`:
`shouldRetry = result.retry && attempt < maxRetries`, with no handler
meaning no retry. -/
def shouldRetry (onLine : Bool) (e : JsError) (attempt maxRetries : Nat) : Bool :=
  match handlerRetry (categorizeError onLine e) with
  | some r => r && decide (attempt < maxRetries)
  | none => false

/-- What one attempt of the underlying `fetch` (plus response check)
does: succeed, or throw an error while the browser is online or
offline. -/
inductive AttemptOutcome where
  | success
  | failure (onLine : Bool) (e : JsError)

/-- Embedding of `APIClient.makeRequest`/`handleError`: attempt
`attempt` runs, and on failure the request is reissued with
`attempt + 1` exactly when `shouldRetry` holds.  As in the source,
`attempt` starts at 1 and `maxRetries` is 3.  Returns the final result
and the number of attempts made. -/
def makeRequest (outcomes : Nat → AttemptOutcome)
    (attempt maxRetries : Nat) : Except JsError Unit × Nat :=
  match outcomes attempt with
  | .success => (.ok (), 1)
  | .failure onLine e =>
      if h : shouldRetry onLine e attempt maxRetries = true then
        let r := makeRequest outcomes (attempt + 1) maxRetries
        (r.1, r.2 + 1)
      else (.error e, 1)
termination_by maxRetries - attempt
decreasing_by
  simp only [shouldRetry] at h
  rcases hr : handlerRetry (categorizeError onLine e) with _ | r
  · rw [hr] at h
    exact absurd h (by simp)
  · rw [hr] at h
    simp only [Bool.and_eq_true, decide_eq_true_eq] at h
    omega

/-- The retryable-failure classification as the claim states it: a
network error, an HTTP 5xx status, or HTTP 429. -/
def retryableSpec (onLine : Bool) (e : JsError) : Bool :=
  (!onLine || e.name == "NetworkError") ||
  (match e.status with
   | some s => decide (500 ≤ s)
   | none => false) ||
  (e.status == some 429)

end APIClient

/-! The upload boundary of `src/app.js` (`validateUploadFile` and the
`handleFileUpload` flow that calls it before reading or uploading). -/

/-- An uploaded `File` as the validator reads it: its name and byte
size. -/
structure UFile where
  name : String
  size : Nat
  deriving Repr, DecidableEq

/-- The allowed extensions of `validateUploadFile`. -/
def allowedTypes : List String :=
  [".py", ".js", ".ts", ".java", ".cpp", ".c", ".cs", ".php", ".rb",
   ".go", ".rs", ".swift"]

/-- The 10 MB size cap of `validateUploadFile`. -/
def maxUploadSize : Nat := 10 * 1024 * 1024

/-- The extension as `validateUploadFile` computes it:
`'.' + file.name.split('.').pop().toLowerCase()`. -/
def fileExtension (name : String) : String :=
  "." ++ ((name.splitOn ".").getLastD "").toLower

/-- Embedding of `validateUploadFile` (`src/app.js`): reject an
unsupported extension, then a size above 10 MB, then an empty file;
otherwise accept.  The thrown `Error` is an `Except.error` carrying the
message text (the interpolated size/extension details are elided). -/
def validateUploadFile (f : UFile) : Except String Unit :=
  let extension := fileExtension f.name
  if !(allowedTypes.contains extension) then
    .error ("File type " ++ extension ++ " is not supported.")
  else if f.size > maxUploadSize then
    .error "File size exceeds maximum allowed size (10MB)"
  else if f.size == 0 then
    .error "File is empty. Please select a file with content."
  else
    .ok ()

/-- The pipeline stages of `handleFileUpload` that matter to the upload
boundary; the progress/UI statements between them are elided. -/
inductive UploadStep where
  | validate
  | readContent
  | displayInEditor
  | upload
  deriving Repr, DecidableEq

/-- Embedding of the `try` block of `handleFileUpload` (`src/app.js`):
validation runs first, and a thrown validation error jumps to `catch`,
so no content is read and no upload request is issued. -/
def handleFileUploadSteps (f : UFile) : List UploadStep :=
  match validateUploadFile f with
  | .error _ => [.validate]
  | .ok _ => [.validate, .readContent, .displayInEditor, .upload]

namespace Chunker

/-- Modelled from the spec: the repository has no Chunker implementation
under src/ (the spec describes one in §4.2 for the reimplementation), so
the chunk data model follows the spec's `CodeChunk`: a sequence index,
the sanitized content slice (here a list of lines), and the 1-based
inclusive `startLine`/`endLine` in original-file coordinates. -/
structure Chunk where
  sequenceIndex : Nat
  content : List String
  startLine : Nat
  endLine : Nat
  deriving Repr, DecidableEq

/-- Modelled from the spec: the character size of a run of lines, used
against `maxChunkSize`. -/
def chunkSize (ls : List String) : Nat :=
  (ls.map String.length).sum

/-- Modelled from the spec: accumulate further lines into the current
chunk while the running size stays within `maxSize`; stop at the first
line that would overflow.  Returns the accepted lines and the rest. -/
def takeFit (maxSize : Nat) (acc : Nat) : List String → List String × List String
  | [] => ([], [])
  | l :: ls =>
      if acc + l.length ≤ maxSize then
        let p := takeFit maxSize (acc + l.length) ls
        (l :: p.1, p.2)
      else ([], l :: ls)

/-- Modelled from the spec: form one chunk from a non-empty rest of the
file — the first line is always taken (a single unit larger than
`maxChunkSize` still becomes its own chunk), further lines while they
fit. -/
def takeChunk (maxSize : Nat) : List String → List String × List String
  | [] => ([], [])
  | l :: ls =>
      let p := takeFit maxSize l.length ls
      (l :: p.1, p.2)

/-- Modelled from the spec: split the sanitized lines into consecutive
runs, each formed by `takeChunk`, recursing on a fuel counter that the
wrapper `chunkLines` instantiates with the line count (shown sufficient
by `takeChunk` consuming at least one line per run). -/
def chunkLinesAux (maxSize : Nat) : Nat → List String → List (List String)
  | 0, _ => []
  | _, [] => []
  | fuel + 1, l :: ls =>
      let p := takeChunk maxSize (l :: ls)
      p.1 :: chunkLinesAux maxSize fuel p.2

/-- Modelled from the spec: split the sanitized lines into consecutive
runs, each formed by `takeChunk`.  (The spec's boundary-aware variant
only moves split points; any contiguous split satisfies the round-trip
law being verified.) -/
def chunkLines (maxSize : Nat) (ls : List String) : List (List String) :=
  chunkLinesAux maxSize ls.length ls

/-- Modelled from the spec: attach sequence indices and 1-based
contiguous line ranges to the runs. -/
def mkChunks : List (List String) → Nat → Nat → List Chunk
  | [], _, _ => []
  | c :: cs, seq, start =>
      { sequenceIndex := seq, content := c, startLine := start,
        endLine := start + c.length - 1 } ::
        mkChunks cs (seq + 1) (start + c.length)

/-- Modelled from the spec (§4.2): empty content yields zero chunks; a
file whose size fits `maxChunkSize` is one chunk spanning the whole
file; otherwise the file is split into consecutive bounded runs. -/
def chunk (maxSize : Nat) (content : List String) : List Chunk :=
  match content with
  | [] => []
  | _ :: _ =>
      if chunkSize content ≤ maxSize then
        [{ sequenceIndex := 0, content := content, startLine := 1,
           endLine := content.length }]
      else
        mkChunks (chunkLines maxSize content) 0 1

/-- Decidable statement that a chunk list exactly covers the line range
from `start` to `stop` (1-based, inclusive): each chunk starts where
demanded, is non-degenerate, and hands over at `endLine + 1` — so the
ranges are contiguous, non-overlapping and gap-free. -/
def covers (start stop : Nat) : List Chunk → Bool
  | [] => start == stop + 1
  | c :: cs =>
      (c.startLine == start) && (start ≤ c.endLine) &&
        covers (c.endLine + 1) stop cs

end Chunker

/-- Whether an `Except` computation returned normally (`try` body ran to
completion) rather than throwing. -/
def exceptOk {e a : Type} : Except e a → Bool
  | .ok _ => true
  | .error _ => false

/-- A concrete high-severity security issue, used as counterexample
input for the security-score formula. -/
def secHighIssue : Issue :=
  ⟨"security", "high", 1, "SQL injection", "use parameters", none⟩

/-- A concrete high-severity issue at line 10, used as counterexample
input for the issue ordering. -/
def issueLine10 : Issue := ⟨"bug", "high", 10, "m1", "s1", none⟩

/-- A concrete high-severity issue at line 5, used as counterexample
input for the issue ordering. -/
def issueLine5 : Issue := ⟨"bug", "high", 5, "m2", "s2", none⟩

end CodeReview

/-! Helper lemmas about the embedded operations, followed by one theorem
per verified claim. -/

namespace CodeReview

theorem insertBySeverity_perm (x : Issue) (ys : List Issue) :
    List.Perm (insertBySeverity x ys) (x :: ys) := by
  induction ys with
  | nil => simp [insertBySeverity]
  | cons y ys ih =>
      by_cases h : severityRank y.severity ≤ severityRank x.severity
      · simp [insertBySeverity, h]
      · simp only [insertBySeverity, if_neg h]
        exact (List.Perm.cons y ih).trans (List.Perm.swap x y ys)

theorem insertBySeverity_pairwise (x : Issue) (ys : List Issue)
    (h : List.Pairwise
      (fun a b => severityRank b.severity ≤ severityRank a.severity) ys) :
    List.Pairwise (fun a b => severityRank b.severity ≤ severityRank a.severity)
      (insertBySeverity x ys) := by
  induction ys with
  | nil => simp [insertBySeverity]
  | cons y ys ih =>
      rcases List.pairwise_cons.mp h with ⟨hy, hys⟩
      by_cases hc : severityRank y.severity ≤ severityRank x.severity
      · simp only [insertBySeverity, if_pos hc]
        refine List.pairwise_cons.mpr ⟨?_, h⟩
        intro z hz
        rcases List.mem_cons.mp hz with rfl | hz
        · exact hc
        · exact le_trans (hy z hz) hc
      · simp only [insertBySeverity, if_neg hc]
        refine List.pairwise_cons.mpr ⟨?_, ih hys⟩
        intro z hz
        have hz2 : z ∈ x :: ys := (insertBySeverity_perm x ys).mem_iff.mp hz
        rcases List.mem_cons.mp hz2 with rfl | hz2
        · exact le_of_not_le hc
        · exact hy z hz2

theorem insertBySeverity_filter (x : Issue) (ys : List Issue) (r : Nat) :
    (insertBySeverity x ys).filter (fun i => severityRank i.severity == r) =
      if severityRank x.severity == r then
        x :: ys.filter (fun i => severityRank i.severity == r)
      else ys.filter (fun i => severityRank i.severity == r) := by
  induction ys with
  | nil =>
      by_cases hx : severityRank x.severity == r
      · simp [insertBySeverity, List.filter, hx]
      · simp [insertBySeverity, List.filter, hx]
  | cons y ys ih =>
      by_cases hc : severityRank y.severity ≤ severityRank x.severity
      · by_cases hx : severityRank x.severity == r
        · simp [insertBySeverity, hc, hx, List.filter]
        · simp [insertBySeverity, hc, hx, List.filter]
      · have hlt : severityRank x.severity < severityRank y.severity :=
          lt_of_not_le hc
        by_cases hx : severityRank x.severity == r
        · have hxr : severityRank x.severity = r := by simpa using hx
          have hy : (severityRank y.severity == r) = false := by
            simp only [beq_eq_false_iff_ne, ne_eq]
            omega
          simp [insertBySeverity, hc, hx, hy, List.filter, ih]
        · simp [insertBySeverity, hc, hx, List.filter, ih]

/-- C1: for a present report summary the quality score is exactly
`max(0, 100 - 20*high - 10*medium - 5*low)` with missing counts read as
zero, and a summary with zero issues of every severity scores
exactly 100. -/
theorem c1_quality_score_formula :
    (∀ s : Summary,
      calculateQualityScore (some s) =
        max 0 (100 - 20 * (s.high_severity_issues.getD 0 : Int)
                 - 10 * (s.medium_severity_issues.getD 0 : Int)
                 - 5 * (s.low_severity_issues.getD 0 : Int))) ∧
    calculateQualityScore (some ⟨some 0, some 0, some 0⟩) = 100 := by
  constructor
  · intro s
    simp only [calculateQualityScore]
    congr 1
    ring
  · decide

/-- C2 counterexample: one high-severity security issue scores 70 under
`calculateSecurityScore` (penalty 30), while the claimed quality-score
formula (penalty 20) would give 80 — so the security score is not
computed by the same formula as the quality score. -/
theorem c2_security_score_counterexample :
    calculateSecurityScore (some ⟨some [secHighIssue]⟩) = 70 ∧
    securityScoreSpec [secHighIssue] = 80 ∧
    calculateSecurityScore (some ⟨some [secHighIssue]⟩) ≠
      securityScoreSpec [secHighIssue] := by
  refine ⟨by decide, by decide, by decide⟩

/-- C2 amended: the security score is
`max(0, 100 - 30*high - 15*medium - 5*low)` over the issues of type
security — the clamped base-100 shape of the claim, but with penalties
30/15/5 instead of the quality score's 20/10/5. -/
theorem c2_security_score_amended :
    ∀ issues : List Issue,
      calculateSecurityScore (some ⟨some issues⟩) =
        max 0 (100
          - 30 * ((issues.filter
              (fun i => i.type == "security" && i.severity == "high")).length : Int)
          - 15 * ((issues.filter
              (fun i => i.type == "security" && i.severity == "medium")).length : Int)
          - 5 * ((issues.filter
              (fun i => i.type == "security" && i.severity == "low")).length : Int)) := by
  intro issues
  simp only [calculateSecurityScore, List.filter_filter]
  have hc : ∀ (sev : String),
      (issues.filter (fun i => i.severity == sev && i.type == "security")) =
        (issues.filter (fun i => i.type == "security" && i.severity == sev)) := by
    intro sev
    exact List.filter_congr (fun a _ => by rw [Bool.and_comm])
  rw [hc "high", hc "medium", hc "low"]
  congr 1
  push_cast
  ring

/-- C3 counterexample: two high-severity issues at lines 10 and 5 are
left in their original order by the sort in `updateIssuesList`, so the
displayed list is not ordered secondarily by ascending line number. -/
theorem c3_sort_counterexample :
    sortIssues [issueLine10, issueLine5] = [issueLine10, issueLine5] ∧
    issueLine10.severity = issueLine5.severity ∧
    issueLine5.line < issueLine10.line ∧
    ¬ List.Pairwise
        (fun a b =>
          severityRank b.severity < severityRank a.severity ∨
            (severityRank a.severity = severityRank b.severity ∧
              a.line ≤ b.line))
        (sortIssues [issueLine10, issueLine5]) := by
  refine ⟨by decide, by decide, by decide, by decide⟩

/-- C3 amended: the displayed issue list is ordered by descending
severity rank only (high before medium before low, unknown severities
last); it is a permutation of the input, and equal-severity issues keep
their original relative order (stability) — line number is not a sort
key. -/
theorem c3_sort_amended :
    ∀ issues : List Issue,
      List.Pairwise
        (fun a b => severityRank b.severity ≤ severityRank a.severity)
        (sortIssues issues) ∧
      List.Perm (sortIssues issues) issues ∧
      ∀ r : Nat,
        (sortIssues issues).filter (fun i => severityRank i.severity == r) =
          issues.filter (fun i => severityRank i.severity == r) := by
  intro issues
  induction issues with
  | nil => exact ⟨List.Pairwise.nil, List.Perm.refl _, fun r => rfl⟩
  | cons x xs ih =>
      rcases ih with ⟨hp, hperm, hf⟩
      refine ⟨insertBySeverity_pairwise x _ hp,
        (insertBySeverity_perm x _).trans (hperm.cons x), ?_⟩
      intro r
      have hcons : sortIssues (x :: xs) = insertBySeverity x (sortIssues xs) :=
        rfl
      rw [hcons, insertBySeverity_filter]
      by_cases hx : severityRank x.severity == r
      · simp [List.filter, hx, hf r]
      · simp [List.filter, hx, hf r]

/-- C10: both score functions stay in the closed range 0..100 on every
input, the quality score defaults to 85 without a summary, and the
security score defaults to 100 without a report or without an issue
list. -/
theorem c10_score_bounds :
    (∀ s : Option Summary,
      0 ≤ calculateQualityScore s ∧ calculateQualityScore s ≤ 100) ∧
    calculateQualityScore none = 85 ∧
    (∀ r : Option ScoreReport,
      0 ≤ calculateSecurityScore r ∧ calculateSecurityScore r ≤ 100) ∧
    calculateSecurityScore none = 100 ∧
    calculateSecurityScore (some ⟨none⟩) = 100 := by
  refine ⟨?_, by decide, ?_, by decide, by decide⟩
  · intro s
    match s with
    | none =>
        exact ⟨by norm_num [calculateQualityScore],
          by norm_num [calculateQualityScore]⟩
    | some s =>
        simp only [calculateQualityScore]
        refine ⟨le_max_left _ _, max_le (by norm_num) ?_⟩
        have h1 : (0 : Int) ≤ (s.high_severity_issues.getD 0 : Nat) * 20 := by
          positivity
        have h2 : (0 : Int) ≤ (s.medium_severity_issues.getD 0 : Nat) * 10 := by
          positivity
        have h3 : (0 : Int) ≤ (s.low_severity_issues.getD 0 : Nat) * 5 := by
          positivity
        omega
  · intro r
    match r with
    | none =>
        exact ⟨by norm_num [calculateSecurityScore],
          by norm_num [calculateSecurityScore]⟩
    | some r =>
        match hr : r.issues with
        | none => simp [calculateSecurityScore, hr]
        | some issues =>
            simp only [calculateSecurityScore, hr]
            refine ⟨le_max_left _ _, max_le (by norm_num) ?_⟩
            omega

end CodeReview

namespace CodeReview

/-- C4 counterexample: on a parse failure (`JSON.parse` throws) the
Gemini client does not surface a failure — it returns a report with
status `completed`, the fallback summary (quality score 75), and one
placeholder issue, i.e. exactly the silent coercion the claim rules
out. -/
theorem c4_parse_failure_counterexample :
    (GeminiClient.parseAnalysisResponse none "app.js" "report_1" "t1").status
        = "completed" ∧
    (GeminiClient.parseAnalysisResponse none "app.js" "report_1" "t1").issues
        = [GeminiClient.fallbackIssue] ∧
    (GeminiClient.parseAnalysisResponse none "app.js" "report_1" "t1").report_summary
        = GeminiClient.fallbackSummary ∧
    GeminiClient.fallbackSummary.overall_quality_score = 75 :=
  ⟨rfl, rfl, rfl, rfl⟩

/-- C4 amended: an unparseable analysis response is silently coerced
into a successful result — for every filename/id/timestamp the parser
returns a report with status `completed`, hard-coded default summary
scores (75/80/75, with `total_issues` left at 0), and a single
placeholder low-severity issue, instead of propagating a parse
failure. -/
theorem c4_parse_failure_amended :
    ∀ filename rid ts : String,
      (GeminiClient.parseAnalysisResponse none filename rid ts).status
          = "completed" ∧
      (GeminiClient.parseAnalysisResponse none filename rid ts).report_summary
          = GeminiClient.fallbackSummary ∧
      (GeminiClient.parseAnalysisResponse none filename rid ts).issues
          = [GeminiClient.fallbackIssue] ∧
      (GeminiClient.parseAnalysisResponse none filename rid ts).issues.length
          = 1 ∧
      (GeminiClient.parseAnalysisResponse none filename rid ts).report_summary.total_issues
          = 0 := by
  intro filename rid ts
  exact ⟨rfl, rfl, rfl, rfl, rfl⟩

/-- C6 counterexample: a non-ok provider response and an absent analysis
text both make `analyzeCode` throw a bare error — the caller receives no
Report shape at all — and the only fallback report the client ever
builds carries status `completed`, not `failed`. -/
theorem c6_all_failed_counterexample :
    GeminiClient.analyzeCode "key" (.httpNotOk "Internal Server Error")
        "app.js" "r1" "t1" =
      .error "Gemini API error: Internal Server Error" ∧
    GeminiClient.analyzeCode "key" (.responded none) "app.js" "r1" "t1" =
      .error "No analysis received from Gemini API" ∧
    (GeminiClient.parseAnalysisResponse none "app.js" "r1" "t1").status
        ≠ "failed" :=
  ⟨rfl, rfl, by decide⟩

/-- C6 amended: with a non-empty API key, every failing provider
interaction (fetch error, non-ok HTTP response, missing analysis text)
makes `analyzeCode` throw the error to the caller — no Failed report
object is built; a report is returned only when analysis text arrives,
and even the unparseable-text fallback has status `completed`. -/
theorem c6_all_failed_amended :
    ∀ apiKey msg f rid ts : String, (apiKey == "") = false →
      GeminiClient.analyzeCode apiKey (.fetchFailed msg) f rid ts
          = .error msg ∧
      GeminiClient.analyzeCode apiKey (.httpNotOk msg) f rid ts
          = .error ("Gemini API error: " ++ msg) ∧
      GeminiClient.analyzeCode apiKey (.responded none) f rid ts
          = .error "No analysis received from Gemini API" ∧
      (∀ parsed,
        GeminiClient.analyzeCode apiKey (.responded (some parsed)) f rid ts
          = .ok (GeminiClient.parseAnalysisResponse parsed f rid ts)) ∧
      (GeminiClient.parseAnalysisResponse none f rid ts).status
          = "completed" := by
  intro apiKey msg f rid ts h
  refine ⟨?_, ?_, ?_, ?_, rfl⟩ <;>
    simp [GeminiClient.analyzeCode, h]

/-- C6 amended, witness: the amended theorem applied to a concrete
non-empty key and a concrete HTTP failure. -/
theorem c6_all_failed_amended_witness :
    ("sk-key" == "") = false ∧
    GeminiClient.analyzeCode "sk-key" (.httpNotOk "boom") "a.js" "r" "t" =
      .error "Gemini API error: boom" :=
  ⟨by decide,
    (c6_all_failed_amended "sk-key" "boom" "a.js" "r" "t" (by decide)).2.1⟩

/-- C9: the result-processing pipeline is deterministic in everything
the claim names — for a fixed parsed analysis the issue list, its sorted
order, and the summary (total and severity counts, scores) are identical
across runs, even though the generated report id and the timestamp (the
only run-varying inputs) differ. -/
theorem c9_aggregation_determinism :
    ∀ (parsed : Option Analysis) (f rid1 ts1 rid2 ts2 : String),
      (GeminiClient.parseAnalysisResponse parsed f rid1 ts1).issues =
        (GeminiClient.parseAnalysisResponse parsed f rid2 ts2).issues ∧
      (GeminiClient.parseAnalysisResponse parsed f rid1 ts1).report_summary =
        (GeminiClient.parseAnalysisResponse parsed f rid2 ts2).report_summary ∧
      sortIssues (GeminiClient.parseAnalysisResponse parsed f rid1 ts1).issues =
        sortIssues (GeminiClient.parseAnalysisResponse parsed f rid2 ts2).issues := by
  intro parsed f rid1 ts1 rid2 ts2
  cases parsed <;> exact ⟨rfl, rfl, rfl⟩

theorem shouldRetry_lt {onLine : Bool} {e : JsError} {a m : Nat}
    (h : APIClient.shouldRetry onLine e a m = true) : a < m := by
  unfold APIClient.shouldRetry at h
  cases hr : APIClient.handlerRetry (APIClient.categorizeError onLine e) with
  | none => rw [hr] at h; exact absurd h (by simp)
  | some r =>
      rw [hr] at h
      simp only [Bool.and_eq_true, decide_eq_true_eq] at h
      exact h.2

theorem retry_classified (onLine : Bool) (e : JsError) :
    (APIClient.handlerRetry (APIClient.categorizeError onLine e)).getD false =
      APIClient.retryableSpec onLine e := by
  obtain ⟨name, status⟩ := e
  unfold APIClient.categorizeError APIClient.retryableSpec
  by_cases hn : (!onLine || (name == "NetworkError")) = true
  · rw [if_pos hn, hn]
    simp only [Bool.true_or]
    rfl
  · have hn' : (!onLine || (name == "NetworkError")) = false :=
      Bool.eq_false_iff.mpr hn
    rw [if_neg hn, hn']
    simp only [Bool.false_or]
    rcases status with _ | s
    · rfl
    · dsimp only
      split_ifs with h1 h2 h3 h4
      · have hs : s = 401 ∨ s = 403 := by simpa using h1
        rcases hs with rfl | rfl <;> rfl
      · have hs : s = 429 := by simpa using h2
        subst hs; rfl
      · have h3e : 400 ≤ s ∧ s < 500 := by simpa using h3
        have h2e : s ≠ 429 := by simpa using h2
        have r1 : decide (500 ≤ s) = false := decide_eq_false (by omega)
        have r2 : ((some s : Option Nat) == some 429) = false :=
          beq_eq_false_iff_ne.mpr (fun hq => h2e (Option.some.inj hq))
        rw [r1, r2]; rfl
      · have r1 : decide (500 ≤ s) = true := decide_eq_true h4
        rw [r1]
        simp only [Bool.true_or]
        rfl
      · have h2e : s ≠ 429 := by simpa using h2
        have r1 : decide (500 ≤ s) = false := decide_eq_false h4
        have r2 : ((some s : Option Nat) == some 429) = false :=
          beq_eq_false_iff_ne.mpr (fun hq => h2e (Option.some.inj hq))
        rw [r1, r2]; rfl

theorem shouldRetry_eq (onLine : Bool) (e : JsError) (a m : Nat) :
    APIClient.shouldRetry onLine e a m =
      (APIClient.retryableSpec onLine e && decide (a < m)) := by
  unfold APIClient.shouldRetry
  rw [← retry_classified]
  cases APIClient.handlerRetry (APIClient.categorizeError onLine e) with
  | none => simp
  | some r => simp

theorem makeRequest_attempts_le :
    ∀ (k : Nat) (outcomes : Nat → APIClient.AttemptOutcome) (a m : Nat),
      m - a ≤ k → (APIClient.makeRequest outcomes a m).2 ≤ k + 1 := by
  intro k
  induction k with
  | zero =>
      intro outcomes a m h
      rw [APIClient.makeRequest]
      cases outcomes a with
      | success => simp
      | failure onLine e =>
          have hf : APIClient.shouldRetry onLine e a m = false := by
            rw [shouldRetry_eq]
            have hd : decide (a < m) = false := decide_eq_false (by omega)
            rw [hd, Bool.and_false]
          have hnr : ¬ APIClient.shouldRetry onLine e a m = true := by
            rw [hf]; simp
          dsimp only
          rw [dif_neg hnr]
  | succ k ih =>
      intro outcomes a m h
      rw [APIClient.makeRequest]
      cases outcomes a with
      | success => simp
      | failure onLine e =>
          dsimp only
          by_cases hr : APIClient.shouldRetry onLine e a m = true
          · have hlt := shouldRetry_lt hr
            have hih := ih outcomes (a + 1) m (by omega)
            rw [dif_pos hr]
            dsimp only
            omega
          · rw [dif_neg hr]
            dsimp only
            omega

theorem makeRequest_const_failure (onLine : Bool) (e : JsError) :
    (APIClient.makeRequest (fun _ => .failure onLine e) 1 3).2 =
      if APIClient.retryableSpec onLine e = true then 3 else 1 := by
  by_cases h : APIClient.retryableSpec onLine e = true
  · have h1 : APIClient.shouldRetry onLine e 1 3 = true := by
      rw [shouldRetry_eq, h]; rfl
    have h2 : APIClient.shouldRetry onLine e (1 + 1) 3 = true := by
      rw [shouldRetry_eq, h]; rfl
    have h3 : ¬ APIClient.shouldRetry onLine e (1 + 1 + 1) 3 = true := by
      rw [shouldRetry_eq, h]; decide
    rw [if_pos h]
    rw [APIClient.makeRequest]
    dsimp only
    rw [dif_pos h1]
    dsimp only
    rw [APIClient.makeRequest]
    dsimp only
    rw [dif_pos h2]
    dsimp only
    rw [APIClient.makeRequest]
    dsimp only
    rw [dif_neg h3]
  · have hf : APIClient.retryableSpec onLine e = false := Bool.eq_false_iff.mpr h
    have h1 : ¬ APIClient.shouldRetry onLine e 1 3 = true := by
      rw [shouldRetry_eq, hf, Bool.false_and]; simp
    rw [if_neg h]
    rw [APIClient.makeRequest]
    dsimp only
    rw [dif_neg h1]

/-- C5: a request makes at most 3 attempts in total; within the cap a
failed attempt is retried exactly when the failure is classified
retryable — a network error, HTTP 5xx, or HTTP 429 — and with a
persistently failing endpoint a retryable error consumes exactly the 3
attempts while a non-retryable one (including 401/403 and other 4xx)
stops after the first. -/
theorem c5_retry_policy :
    (∀ outcomes : Nat → APIClient.AttemptOutcome,
      (APIClient.makeRequest outcomes 1 3).2 ≤ 3) ∧
    (∀ (onLine : Bool) (e : JsError),
      (APIClient.shouldRetry onLine e 1 3 = true ↔
        APIClient.retryableSpec onLine e = true) ∧
      (APIClient.makeRequest (fun _ => .failure onLine e) 1 3).2 =
        (if APIClient.retryableSpec onLine e = true then 3 else 1)) := by
  refine ⟨fun outcomes => ?_,
    fun onLine e => ⟨?_, makeRequest_const_failure onLine e⟩⟩
  · have hb := makeRequest_attempts_le 2 outcomes 1 3 (by omega)
    omega
  · rw [shouldRetry_eq]
    simp

end CodeReview

namespace CodeReview

namespace Chunker

theorem takeFit_append (maxSize : Nat) :
    ∀ (acc : Nat) (ls : List String),
      (takeFit maxSize acc ls).1 ++ (takeFit maxSize acc ls).2 = ls := by
  intro acc ls
  induction ls generalizing acc with
  | nil => rfl
  | cons l ls ih =>
      by_cases h : acc + l.length ≤ maxSize
      · simp [takeFit, h, ih]
      · simp [takeFit, h]

theorem takeFit_rest_length (maxSize : Nat) :
    ∀ (acc : Nat) (ls : List String),
      (takeFit maxSize acc ls).2.length ≤ ls.length := by
  intro acc ls
  induction ls generalizing acc with
  | nil => simp [takeFit]
  | cons l ls ih =>
      by_cases h : acc + l.length ≤ maxSize
      · simp only [takeFit, if_pos h]
        exact le_trans (ih (acc + l.length)) (Nat.le_succ _)
      · simp [takeFit, h]

theorem takeChunk_append (maxSize : Nat) (ls : List String) :
    (takeChunk maxSize ls).1 ++ (takeChunk maxSize ls).2 = ls := by
  cases ls with
  | nil => rfl
  | cons l ls => simp [takeChunk, takeFit_append]

theorem takeChunk_rest_length (maxSize : Nat) (l : String) (ls : List String) :
    (takeChunk maxSize (l :: ls)).2.length < (l :: ls).length := by
  simp only [takeChunk, List.length_cons]
  exact Nat.lt_succ_of_le (takeFit_rest_length maxSize l.length ls)

theorem chunkLinesAux_flatten (maxSize : Nat) :
    ∀ (n : Nat) (ls : List String), ls.length ≤ n →
      (chunkLinesAux maxSize n ls).flatten = ls := by
  intro n
  induction n with
  | zero =>
      intro ls h
      have hnil : ls = [] := List.length_eq_zero.mp (Nat.le_zero.mp h)
      subst hnil
      rfl
  | succ n ih =>
      intro ls h
      cases ls with
      | nil => rfl
      | cons l ls =>
          simp only [chunkLinesAux]
          have hlen := takeChunk_rest_length maxSize l ls
          rw [List.length_cons] at h hlen
          have hrest := ih (takeChunk maxSize (l :: ls)).2 (by omega)
          simp only [List.flatten_cons, hrest]
          exact takeChunk_append maxSize (l :: ls)

theorem chunkLinesAux_ne_nil (maxSize : Nat) :
    ∀ (n : Nat) (ls : List String), ls.length ≤ n →
      ∀ c ∈ chunkLinesAux maxSize n ls, c ≠ [] := by
  intro n
  induction n with
  | zero =>
      intro ls h c hc
      have hnil : ls = [] := List.length_eq_zero.mp (Nat.le_zero.mp h)
      subst hnil
      simp [chunkLinesAux] at hc
  | succ n ih =>
      intro ls h c hc
      cases ls with
      | nil => simp [chunkLinesAux] at hc
      | cons l ls =>
          simp only [chunkLinesAux] at hc
          rcases List.mem_cons.mp hc with rfl | hc
          · simp [takeChunk]
          · have hlen := takeChunk_rest_length maxSize l ls
            rw [List.length_cons] at h hlen
            exact ih (takeChunk maxSize (l :: ls)).2 (by omega) c hc

theorem chunkLines_flatten (maxSize : Nat) (ls : List String) :
    (chunkLines maxSize ls).flatten = ls :=
  chunkLinesAux_flatten maxSize ls.length ls le_rfl

theorem chunkLines_ne_nil (maxSize : Nat) (ls : List String) :
    ∀ c ∈ chunkLines maxSize ls, c ≠ [] :=
  chunkLinesAux_ne_nil maxSize ls.length ls le_rfl

theorem mkChunks_contents :
    ∀ (css : List (List String)) (seq start : Nat),
      (mkChunks css seq start).map Chunk.content = css := by
  intro css
  induction css with
  | nil => intro seq start; rfl
  | cons c cs ih =>
      intro seq start
      simp only [mkChunks, List.map_cons, ih]

theorem mkChunks_covers :
    ∀ (css : List (List String)) (seq start : Nat), 1 ≤ start →
      (∀ c ∈ css, c ≠ []) →
      covers start (start + (css.map List.length).sum - 1)
        (mkChunks css seq start) = true := by
  intro css
  induction css with
  | nil =>
      intro seq start h1 _
      simp only [mkChunks, covers, List.map_nil, List.sum_nil, Nat.add_zero,
        beq_iff_eq]
      omega
  | cons c cs ih =>
      intro seq start h1 hne
      have hc : c ≠ [] := hne c (List.mem_cons_self c cs)
      have hclen : 1 ≤ c.length := List.length_pos.mpr hc
      simp only [mkChunks, covers, List.map_cons, List.sum_cons,
        Bool.and_eq_true, beq_iff_eq, decide_eq_true_eq]
      refine ⟨⟨by simp, by omega⟩, ?_⟩
      have he : start + c.length - 1 + 1 = start + c.length := by omega
      rw [he]
      have hrec := ih (seq + 1) (start + c.length) (by omega)
        (fun d hd => hne d (List.mem_cons_of_mem c hd))
      have harith : start + c.length + (cs.map List.length).sum - 1 =
          start + (c.length + (cs.map List.length).sum) - 1 := by omega
      rw [harith] at hrec
      exact hrec

end Chunker

/-- C7: the chunker satisfies the round-trip law — concatenating the
chunk contents in sequence order reproduces the sanitized content
exactly, and the chunks' inclusive line ranges are contiguous,
non-overlapping, and partition the range from line 1 to the total line
count with no gaps (`covers` checks `startLine` handover at
`endLine + 1` for every consecutive pair). -/
theorem c7_chunker_round_trip :
    ∀ (maxSize : Nat) (content : List String),
      ((Chunker.chunk maxSize content).map Chunker.Chunk.content).flatten
          = content ∧
      Chunker.covers 1 content.length (Chunker.chunk maxSize content) = true := by
  intro maxSize content
  cases content with
  | nil => exact ⟨rfl, by simp [Chunker.chunk, Chunker.covers]⟩
  | cons l ls =>
      by_cases hfit : Chunker.chunkSize (l :: ls) ≤ maxSize
      · constructor
        · simp [Chunker.chunk, hfit]
        · simp only [Chunker.chunk, if_pos hfit, Chunker.covers,
            Bool.and_eq_true, beq_iff_eq, decide_eq_true_eq]
          refine ⟨⟨by simp, by simp⟩, by simp⟩
      · have hjoin := Chunker.chunkLines_flatten maxSize (l :: ls)
        have hne := Chunker.chunkLines_ne_nil maxSize (l :: ls)
        constructor
        · simp only [Chunker.chunk, if_neg hfit, Chunker.mkChunks_contents]
          exact hjoin
        · simp only [Chunker.chunk, if_neg hfit]
          have hcov := Chunker.mkChunks_covers
            (Chunker.chunkLines maxSize (l :: ls)) 0 1 le_rfl hne
          have hsum : ((Chunker.chunkLines maxSize (l :: ls)).map
              List.length).sum = (l :: ls).length := by
            rw [← List.length_flatten, hjoin]
          rw [hsum] at hcov
          have harith : 1 + (l :: ls).length - 1 = (l :: ls).length := by omega
          rw [harith] at hcov
          exact hcov

theorem validateUploadFile_ok_iff (f : UFile) :
    exceptOk (validateUploadFile f) = true ↔
      fileExtension f.name ∈ allowedTypes ∧
        f.size ≤ maxUploadSize ∧ f.size ≠ 0 := by
  unfold validateUploadFile
  cases hb : allowedTypes.contains (fileExtension f.name) with
  | false =>
      have h1 : fileExtension f.name ∉ allowedTypes := by simpa using hb
      simp [hb, exceptOk, h1]
  | true =>
      have h1 : fileExtension f.name ∈ allowedTypes := by simpa using hb
      by_cases h2 : f.size > maxUploadSize
      · simp [hb, h2, exceptOk, h1]
      · by_cases h3 : (f.size == 0) = true
        · have h3e : f.size = 0 := by simpa using h3
          simp [hb, h2, h3, exceptOk, h1]
          omega
        · have h3e : f.size ≠ 0 := by simpa using h3
          simp [hb, h2, h3, exceptOk, h1, h3e]
          omega

/-- C8: the upload boundary accepts a file exactly when it is non-empty,
at most 10 MB, and has a supported extension — equivalently it rejects
exactly the empty, oversized, or unsupported files — and the upload
request (the step that hands the file to analysis) is issued exactly
when validation passes, so a rejected file triggers no further work. -/
theorem c8_upload_validation :
    ∀ f : UFile,
      (exceptOk (validateUploadFile f) = true ↔
        ¬(f.size = 0 ∨ f.size > 10485760 ∨
            fileExtension f.name ∉ allowedTypes)) ∧
      (UploadStep.upload ∈ handleFileUploadSteps f ↔
        exceptOk (validateUploadFile f) = true) := by
  intro f
  constructor
  · rw [validateUploadFile_ok_iff]
    have hmax : maxUploadSize = 10485760 := rfl
    constructor
    · rintro ⟨hext, hsize, hzero⟩ hcon
      rcases hcon with h | h | h
      · exact hzero h
      · omega
      · exact h hext
    · intro hcon
      push_neg at hcon
      exact ⟨hcon.2.2, by omega, hcon.1⟩
  · unfold handleFileUploadSteps
    cases hv : validateUploadFile f with
    | error msg => simp [exceptOk]
    | ok u => simp [exceptOk]

end CodeReview
